import Mathlib

/-!
Verification of the game-mirror synchronization tool (scripts/sync-games.py).

The development shallowly embeds the parts of the program relevant to the
claims: the TSV parser, the zip-extraction normalization rule, the atomic
download/upload protocols, the per-item language-list handling, and the
reconciliation loop with its transfer budget, skip handling, missing-source
abort and orphan detection.

Python strings are modelled as Lean `String`; Python `str.split`,
`str.strip`, `str.startswith` and friends are re-implemented on character
lists so that every definition evaluates inside the kernel.  Filesystem and
network effects are modelled as explicit state (lists of names, boolean
flags) plus boolean oracles for the success of the opaque transport
operations (HTTP download, scp copy, remote mv).
-/

/-! ## Python string primitives -/

/-- Prepend a character to the first group of a split result. -/
def consHead (c : Char) : List (List Char) → List (List Char)
  | [] => [[c]]
  | g :: gs => (c :: g) :: gs

/-- Split a character list on a single separator character, Python
`str.split(sep)` semantics: `"".split -> [""]`, separators at the ends
produce empty groups. -/
def splitOnChar (sep : Char) : List Char → List (List Char)
  | [] => [[]]
  | c :: rest =>
    if c = sep then [] :: splitOnChar sep rest else consHead c (splitOnChar sep rest)

/-- Split a character list on the two-character separator CR-LF,
Python `text.split('\x5cr\x5cn')` semantics. -/
def splitCRLF : List Char → List (List Char)
  | [] => [[]]
  | '\r' :: '\n' :: rest => [] :: splitCRLF rest
  | c :: rest => consHead c (splitCRLF rest)

/-- Python `s.split(sep)` for a one-character separator, on `String`. -/
def pySplitChar (sep : Char) (s : String) : List String :=
  (splitOnChar sep s.toList).map (fun l => ⟨l⟩)

/-- Python `text.split('\x5cr\x5cn')` on `String`. -/
def pySplitLines (s : String) : List String :=
  (splitCRLF s.toList).map (fun l => ⟨l⟩)

/-- ASCII whitespace recognized by Python `str.strip()`. -/
def isSpaceChar (c : Char) : Bool :=
  c = ' ' ∨ c = '\t' ∨ c = '\n' ∨ c = '\r' ∨ c = '\x0b' ∨ c = '\x0c'

/-- Python `s.strip()` (ASCII whitespace). -/
def pyStrip (s : String) : String :=
  ⟨((s.toList.dropWhile isSpaceChar).reverse.dropWhile isSpaceChar).reverse⟩

/-- Python `s.startswith(pre)`. -/
def pyStartsWith (s pre : String) : Bool :=
  pre.toList.isPrefixOf s.toList

/-- Python `s.endswith(suf)`. -/
def pyEndsWith (s suf : String) : Bool :=
  suf.toList.isSuffixOf s.toList

/-- Drop the first `n` characters of a string. -/
def pyDrop (n : Nat) (s : String) : String :=
  ⟨s.toList.drop n⟩

/-! ## parse_tsv (GameDownloader.parse_tsv)

The parser splits the text on CR-LF line boundaries, reads the first line
as the header row, skips blank lines, splits every other line on tabs and
positionally assigns values to header names into a dict (insertion-ordered,
assignment overwrites in place), dropping values whose column index is
beyond the header. -/

/-- Python dict assignment `row[key] = value` on an insertion-ordered
association list: overwrite in place if the key is present, else append. -/
def dictInsert (row : List (String × String)) (key value : String) :
    List (String × String) :=
  if key ∈ row.map Prod.fst then
    row.map (fun kv => if kv.1 = key then (key, value) else kv)
  else row ++ [(key, value)]

/-- Loop `for col, value in enumerate(values): if col < len(headers):
row[headers[col]] = value`, recursing over headers and values in step. -/
def buildRowAux : List (String × String) → List String → List String →
    List (String × String)
  | row, _, [] => row
  | row, [], _ :: _ => row
  | row, h :: hs, v :: vs => buildRowAux (dictInsert row h v) hs vs

/-- Build the record for one data line from the header names and the line's
tab-separated values. -/
def buildRow (headers values : List String) : List (String × String) :=
  buildRowAux [] headers values

/-- Core of `parse_tsv` after line splitting: first line is the header row,
blank lines are skipped, every other line becomes one record. -/
def parse_tsvLines : List String → List (List (String × String))
  | [] => []
  | headerLine :: rest =>
    let headers := pySplitChar '\t' headerLine
    (rest.filter (fun l => pyStrip l != "")).map
      (fun l => buildRow headers (pySplitChar '\t' l))

/-- GameDownloader.parse_tsv: split on CR-LF then parse. -/
def parse_tsv (text : String) : List (List (String × String)) :=
  parse_tsvLines (pySplitLines text)

/-! ## Language handling (GameDownloader._extract_languages and the
creation path of GameDownloader.add_or_update_game_metadata) -/

/-- Ordered candidate language column names probed by `_extract_languages`. -/
def lang_columns : List String :=
  ["lang", "language", "language1", "language2", "language3"]

/-- GameDownloader._extract_languages: probe the candidate columns of a row
(absent column reads as the empty string), strip each value, keep non-blank
values not already collected, preserving first-seen order. -/
def extract_languages (data : String → String) : List String :=
  lang_columns.foldl
    (fun acc col =>
      let v := pyStrip (data col)
      if v ≠ "" ∧ v ∉ acc then acc ++ [v] else acc)
    []

/-- Language field stored by the creation path of
`add_or_update_game_metadata`: an empty list stores nothing; otherwise the
first occurrence of the literal "en" is removed (`languages.remove('en')`),
and if the list has become empty nothing is stored. -/
def afterEnRemoval (languages : List String) : List String :=
  if "en" ∈ languages then languages.erase "en" else languages

def storedLanguages (languages : List String) : Option (List String) :=
  if languages = [] then none
  else if afterEnRemoval languages = [] then none
  else some (afterEnRemoval languages)

/-! ## extract_zip (GameDownloader.extract_zip)

A zip archive is modelled by its entry-name list (`namelist()` order); a
directory entry is a name ending in `/`.  The local filesystem state
relevant to the function is whether the destination folder
(`download_dir / stem`) already exists.  The result records the returned
folder path (always the stem), the members written (relative to the
destination), whether extraction work was performed and whether the source
archive was deleted.  The `relative_to` call of the unwrap branch raises on
a member outside the single root folder; this is modelled by `Except`. -/

structure ExtractResult where
  returned : String
  written : List String
  extracted : Bool
  zipDeleted : Bool
deriving Repr, DecidableEq

/-- Root-level files of the entry list: entries not under `__MACOSX/` whose
split on `/` has exactly one non-empty part. -/
def codeRootFiles (entries : List String) : List String :=
  (entries.filter (fun n => !(pyStartsWith n "__MACOSX/"))).filter
    (fun n =>
      let parts := pySplitChar '/' n
      parts.length = 1 ∧ parts.headD "" ≠ "")

/-- Root-level folder names of the entry list: entries not under
`__MACOSX/` with more than one part, a non-empty first part and an empty
second part (`len(parts) > 1 and parts[0] and not parts[1]`), i.e. explicit
directory entries of the form `Name/`. -/
def codeRootFolders (entries : List String) : List String :=
  (entries.filter (fun n => !(pyStartsWith n "__MACOSX/"))).filterMap
    (fun n =>
      match pySplitChar '/' n with
      | p :: q :: _ => if p ≠ "" ∧ q = "" then some p else none
      | _ => none)

/-- Member skipped by the unwrap branch: a directory entry
(`member.is_dir()`, i.e. the name ends in `/`) or a member whose first path
part is `__MACOSX`. -/
def memberSkipped (n : String) : Bool :=
  pyEndsWith n "/" || ((pySplitChar '/' n).headD "" == "__MACOSX")

/-- Unwrap-branch loop: write every non-skipped member with the single root
folder stripped (`member_path.relative_to(single_folder)`); a member that
does not lie under the folder raises (modelled as `Except.error`). -/
def stripMembers (folder : String) : List String → Except String (List String)
  | [] => .ok []
  | n :: ns =>
    if memberSkipped n then stripMembers folder ns
    else if pyStartsWith n (folder ++ "/") then
      match stripMembers folder ns with
      | .ok rest => .ok (pyDrop (folder.length + 1) n :: rest)
      | .error e => .error e
    else .error n

/-- GameDownloader.extract_zip on an archive with base name `stem`,
destination-folder existence `dirExists` and entry list `entries`. -/
def extract_zip (stem : String) (dirExists : Bool) (entries : List String) :
    Except String ExtractResult :=
  if dirExists then .ok ⟨stem, [], false, false⟩
  else if codeRootFiles entries = [] ∧ ((codeRootFolders entries).dedup).length = 1 then
    match stripMembers (((codeRootFolders entries).dedup).headD "") entries with
    | .ok files => .ok ⟨stem, files, true, true⟩
    | .error e => .error e
  else .ok ⟨stem, entries, true, true⟩

/-- Root-level files in the sense of the specification text: entries
(ignoring those under `__MACOSX/`) that name a file at archive root, i.e.
have a single non-empty path component.  Stated from the claim's words for
comparison with `codeRootFiles`. -/
def specRootFiles (entries : List String) : List String :=
  entries.filter (fun n =>
    !(pyStartsWith n "__MACOSX/") &&
      (match pySplitChar '/' n with
       | [p] => p != ""
       | _ => false))

/-- Distinct root-level folder names in the sense of the specification
text: the first path component of any entry (ignoring those under
`__MACOSX/`) that lies below a root folder — e.g. an archive holding only
`Foo/a.txt` and `Foo/sub/b.txt` has the single distinct root folder `Foo`.
Stated from the claim's words for comparison with `codeRootFolders`. -/
def specRootFolders (entries : List String) : List String :=
  (entries.filterMap (fun n =>
    if pyStartsWith n "__MACOSX/" then none
    else
      match pySplitChar '/' n with
      | p :: _ :: _ => if p ≠ "" then some p else none
      | _ => none)).dedup

/-! ## download_file (GameDownloader.download_file)

The local download directory is a list of file names.  The transfer writes
to `<filename>.downloading` and renames to `filename` only on success; on
failure the partial temp file (if any) is unlinked, the error is reported
and `None` is returned.  The three possible outcomes of the opaque
`urlretrieve` call are success, failure after the temp file was (partially)
written, and failure before any file was created. -/

inductive DlOutcome where
  | success
  | failAfterPartial
  | failEarly
deriving Repr, DecidableEq

/-- GameDownloader.download_file: returns the Python return value (`None`
on failure) and the final download-directory contents. -/
def download_file (files : List String) (filename : String)
    (outcome : DlOutcome) : Option String × List String :=
  let temp := filename ++ ".downloading"
  match outcome with
  | .success =>
    let afterWrite := temp :: files
    (some filename, filename :: afterWrite.filter (fun x => x ≠ temp))
  | .failAfterPartial =>
    let afterWrite := temp :: files
    (none, afterWrite.filter (fun x => x ≠ temp))
  | .failEarly =>
    (none, files.filter (fun x => x ≠ temp))

/-! ## upload_folder (GameDownloader.upload_folder)

The remote directory is a list of folder names.  The upload first removes
any stale `<name>.uploading` (`rm -rf`, check=False), copies the payload to
the temp name, then renames it into place; on a failed copy or rename the
temp name is removed and `False` is returned instead of raising. -/

/-- GameDownloader.upload_folder with success oracles for the two
`check=True` subprocess calls (scp copy, remote mv).  Returns the Python
return value and the final remote contents. -/
def upload_folder (remote : List String) (folderName : String)
    (copyOk mvOk : Bool) : Bool × List String :=
  let temp := folderName ++ ".uploading"
  let afterCleanup := remote.filter (fun x => x ≠ temp)
  if copyOk then
    let afterCopy := temp :: afterCleanup
    if mvOk then
      (true, folderName :: afterCopy.filter (fun x => x ≠ temp))
    else
      (false, afterCopy.filter (fun x => x ≠ temp))
  else
    (false, afterCleanup.filter (fun x => x ≠ temp))

/-! ## Reconciliation engine (GameDownloader.download_and_process_games)

Each catalog item of the unified processing list is described by the facts
the loop body reads: its target name, whether it has a usable source URL
(`has_scummvm_download`) and the derived archive file name, its metadata
skip flag, whether `games_metadata` holds a record for its relative path,
the state of its local artifacts (extracted folder at
`download_dir / target_name`, downloaded file at `download_dir / filename`,
stale `<filename>.downloading` temp file), and success oracles for its
download and upload.  The run state carries the remote directory snapshot
(shrunk as items match), the transfer counter and the processed list. -/

structure Item where
  targetName : String
  hasDownload : Bool
  filename : String
  isSkipped : Bool
  hasMetadata : Bool
  localFolder : Bool
  localFile : Bool
  tempFile : Bool
  downloadOk : Bool
  uploadOk : Bool
deriving Repr, DecidableEq

structure LocalFiles where
  folder : Bool
  file : Bool
  temp : Bool
deriving Repr, DecidableEq

structure RunState where
  remoteFolders : List String
  transferCount : Nat
  processed : List String
deriving Repr, DecidableEq

inductive RunError where
  | missingSource (target : String)
  | downloadTypeError (target : String)
  | orphans (names : List String)
deriving Repr, DecidableEq

/-- GameDownloader.folder_exists_on_remote with a pre-fetched folder set:
reports membership and removes the folder from the snapshot when found. -/
def folder_exists_on_remote (folderName : String) (remote : List String) :
    Bool × List String :=
  if folderName ∈ remote then (true, remote.erase folderName)
  else (false, remote)

/-- Filename ends in `.zip`. -/
def isZip (filename : String) : Bool :=
  pyEndsWith filename ".zip"

/-- Append the item's metadata record to the processed list when
`should_process_metadata` is set; a missing record only prints a warning. -/
def markProcessed (st : RunState) (g : Item) : RunState :=
  if g.hasMetadata then { st with processed := st.processed ++ [g.targetName] }
  else st

/-- Local-file cleanup of the already-on-remote branches: the local folder
and the downloaded file are removed when the item has a download URL and a
non-empty filename. -/
def cleanupRemoteDone (g : Item) : LocalFiles :=
  if g.hasDownload ∧ g.filename ≠ "" then ⟨false, false, g.tempFile⟩
  else ⟨g.localFolder, g.localFile, g.tempFile⟩

/-- One iteration of the processing loop of
GameDownloader.download_and_process_games (the body from the remote
existence check to the processed-list append), returning the updated run
state and the item's final local artifacts, or the exception aborting the
run. -/
def processItem (maxTransfers : Option Nat) (st0 : RunState) (g : Item) :
    Except RunError (RunState × LocalFiles) :=
  let fe := folder_exists_on_remote g.targetName st0.remoteFolders
  let existsOnRemote := fe.1
  let st := { st0 with remoteFolders := fe.2 }
  if g.isSkipped ∧ existsOnRemote = false then
    -- skip flag and not on remote: print only, nothing processed
    .ok (st, ⟨g.localFolder, g.localFile, g.tempFile⟩)
  else if g.isSkipped ∧ existsOnRemote = true then
    -- marked skip but on remote: include in export, clean local leftovers
    .ok (markProcessed st g, cleanupRemoteDone g)
  else if existsOnRemote = true then
    -- already on remote: include in export, clean local leftovers
    .ok (markProcessed st g, cleanupRemoteDone g)
  else if g.hasDownload = false then
    -- no way to obtain the item: FileNotFoundError aborts the run
    .error (.missingSource g.targetName)
  else
    let allow :=
      match maxTransfers with
      | none => true
      | some m => decide (st.transferCount < m)
    if isZip g.filename ∧ g.localFolder then
      -- extracted folder already local: upload if allowed, then remove it
      let uploaded := allow && g.uploadOk
      let st1 :=
        if uploaded = true then { st with transferCount := st.transferCount + 1 }
        else st
      .ok (markProcessed st1 g, ⟨false, g.localFile, g.tempFile⟩)
    else
      -- download path: stale temp download removed first
      if allow = true then
        if g.localFile = false ∧ g.downloadOk = false then
          -- download_file returned None
          if isZip g.filename then
            -- extract_zip(None) raises TypeError
            .error (.downloadTypeError g.targetName)
          else
            .ok (markProcessed st g, ⟨g.localFolder, false, false⟩)
        else
          if isZip g.filename then
            -- extract (deletes the archive, creates the folder), upload
            let st1 :=
              if g.uploadOk then
                { st with transferCount := st.transferCount + 1 }
              else st
            .ok (markProcessed st1 g, ⟨true, false, false⟩)
          else
            .ok (markProcessed st g, ⟨g.localFolder, true, false⟩)
      else
        -- transfer budget reached: remove the local artifacts, do not
        -- process the item
        .ok (st, ⟨false, false, false⟩)

/-- The processing loop over the unified item list. -/
def processItems (maxTransfers : Option Nat) :
    RunState → List Item → Except RunError RunState
  | st, [] => .ok st
  | st, g :: gs =>
    match processItem maxTransfers st g with
    | .error e => .error e
    | .ok (st', _) => processItems maxTransfers st' gs

/-- Lexicographic (code-point) comparison of character lists, the order of
Python `sorted` on strings. -/
def charListLe : List Char → List Char → Bool
  | [], _ => true
  | _ :: _, [] => false
  | a :: as, b :: bs => if a = b then charListLe as bs else decide (a.val < b.val)

/-- Python string comparison `a <= b`. -/
def strLe (a b : String) : Bool :=
  charListLe a.toList b.toList

/-- Insertion into a sorted list of strings. -/
def insertSorted (x : String) : List String → List String
  | [] => [x]
  | y :: ys => if strLe x y then x :: y :: ys else y :: insertSorted x ys

/-- Python `sorted` on a list of strings (insertion sort). -/
def sortStrings (l : List String) : List String :=
  l.foldr insertSorted []

/-- GameDownloader.download_and_process_games from the initial remote
snapshot: run the loop over every item, then fail on the sorted list of
orphaned remote folders if any snapshot entries were never matched;
otherwise the processed list is what the exporter receives. -/
def download_and_process_games (maxTransfers : Option Nat)
    (remoteFolders : List String) (items : List Item) :
    Except RunError (List String) :=
  match processItems maxTransfers ⟨remoteFolders, 0, []⟩ items with
  | .error e => .error e
  | .ok st =>
    if st.remoteFolders = [] then .ok st.processed
    else .error (.orphans (sortStrings st.remoteFolders))

instance {e a : Type} [DecidableEq e] [DecidableEq a] : DecidableEq (Except e a) :=
  fun x y =>
    match x, y with
    | .ok v, .ok w =>
      if h : v = w then isTrue (by rw [h])
      else isFalse (fun hc => h (Except.ok.inj hc))
    | .error v, .error w =>
      if h : v = w then isTrue (by rw [h])
      else isFalse (fun hc => h (Except.error.inj hc))
    | .ok _, .error _ => isFalse (fun hc => Except.noConfusion hc)
    | .error _, .ok _ => isFalse (fun hc => Except.noConfusion hc)

/-! ## Auxiliary lemmas -/

theorem filter_ne_idem (l : List String) (a : String) :
    (l.filter (fun x => x ≠ a)).filter (fun x => x ≠ a) = l.filter (fun x => x ≠ a) := by
  induction l with
  | nil => rfl
  | cons b bs ih =>
    by_cases hb : b = a
    · simp [hb, List.filter_cons, ih]
    · simp [List.filter_cons, hb, ih]

theorem not_mem_filter_ne_self (l : List String) (a : String) :
    a ∉ l.filter (fun x => x ≠ a) := by
  intro h
  have := List.of_mem_filter h
  simp at this

theorem ne_append_suffix (s t : String) (h : t.length ≠ 0) : s ++ t ≠ s := by
  intro hc
  have hlen := congrArg String.length hc
  rw [String.length_append] at hlen
  omega

/-! ## C4: atomic upload -/

/-- C4: upload is atomic: after pre-emptively removing any stale
`<name>.uploading` leftover, the payload is copied to the temp name and a
remote rename moves it into place; if the upload fails after the temp-path
copy but before the rename, the operation returns failure instead of
raising, the temp name is removed by cleanup, and no folder exists at the
final remote name. -/
theorem c4_atomic_upload (remote : List String) (name : String)
    (hfresh : name ∉ remote) :
    upload_folder remote name true true
      = (true, name :: remote.filter (fun x => x ≠ name ++ ".uploading"))
    ∧ (upload_folder remote name true false).1 = false
    ∧ (upload_folder remote name true false).2
      = remote.filter (fun x => x ≠ name ++ ".uploading")
    ∧ (name ++ ".uploading") ∉ (upload_folder remote name true false).2
    ∧ name ∉ (upload_folder remote name true false).2 := by
  have hfail : (upload_folder remote name true false).2
      = remote.filter (fun x => x ≠ name ++ ".uploading") := by
    simp only [upload_folder, List.filter_cons]
    simp [filter_ne_idem]
  refine ⟨?_, rfl, hfail, ?_, ?_⟩
  · simp only [upload_folder, List.filter_cons]
    simp [filter_ne_idem]
  · rw [hfail]; exact not_mem_filter_ne_self _ _
  · rw [hfail]
    intro h
    exact hfresh (List.mem_of_mem_filter h)

/-- Witness for C4 at a concrete remote state containing a stale temp
folder. -/
theorem c4_atomic_upload_witness :
    upload_folder ["x", "g.uploading"] "g" true true = (true, ["g", "x"])
    ∧ (upload_folder ["x", "g.uploading"] "g" true false).1 = false
    ∧ (upload_folder ["x", "g.uploading"] "g" true false).2 = ["x"]
    ∧ "g.uploading" ∉ (upload_folder ["x", "g.uploading"] "g" true false).2
    ∧ "g" ∉ (upload_folder ["x", "g.uploading"] "g" true false).2 := by
  have h := c4_atomic_upload ["x", "g.uploading"] "g" (by decide)
  simpa using h

/-! ## C5: atomic download -/

/-- C5: the download is written to a `<name>.downloading` sibling path and
only renamed to the final name after the transfer completes without error;
on any failure the partial temp file is removed, the error is reported but
not raised, and the operation returns None, leaving no file at the final
name. -/
theorem c5_download_atomic (files : List String) (filename : String)
    (hfresh : filename ∉ files) :
    (download_file files filename .success).1 = some filename
    ∧ filename ∈ (download_file files filename .success).2
    ∧ (filename ++ ".downloading") ∉ (download_file files filename .success).2
    ∧ (download_file files filename .failAfterPartial).1 = none
    ∧ (filename ++ ".downloading") ∉ (download_file files filename .failAfterPartial).2
    ∧ filename ∉ (download_file files filename .failAfterPartial).2
    ∧ (download_file files filename .failEarly).1 = none
    ∧ (filename ++ ".downloading") ∉ (download_file files filename .failEarly).2
    ∧ filename ∉ (download_file files filename .failEarly).2 := by
  refine ⟨rfl, by simp [download_file], ?_, rfl, ?_, ?_, rfl, ?_, ?_⟩
  · simp only [download_file]
    intro h
    rcases List.mem_cons.mp h with h | h
    · exact ne_append_suffix filename ".downloading" (by decide) h
    · exact not_mem_filter_ne_self _ _ h
  · exact not_mem_filter_ne_self _ _
  · simp only [download_file]
    intro h
    have hmem := List.mem_of_mem_filter h
    have hne := List.of_mem_filter h
    simp only [decide_eq_true_eq] at hne
    rcases List.mem_cons.mp hmem with h' | h'
    · exact hne h'
    · exact hfresh h'
  · exact not_mem_filter_ne_self _ _
  · intro h
    exact hfresh (List.mem_of_mem_filter h)

/-- Witness for C5 at a concrete download directory. -/
theorem c5_download_atomic_witness :
    (download_file ["other"] "f.zip" .success).1 = some "f.zip"
    ∧ "f.zip" ∈ (download_file ["other"] "f.zip" .success).2
    ∧ "f.zip.downloading" ∉ (download_file ["other"] "f.zip" .success).2
    ∧ (download_file ["other"] "f.zip" .failAfterPartial).1 = none
    ∧ "f.zip.downloading" ∉ (download_file ["other"] "f.zip" .failAfterPartial).2
    ∧ "f.zip" ∉ (download_file ["other"] "f.zip" .failAfterPartial).2
    ∧ (download_file ["other"] "f.zip" .failEarly).1 = none
    ∧ "f.zip.downloading" ∉ (download_file ["other"] "f.zip" .failEarly).2
    ∧ "f.zip" ∉ (download_file ["other"] "f.zip" .failEarly).2 := by
  have h := c5_download_atomic ["other"] "f.zip" (by decide)
  simpa using h

/-! ## C8: idempotent extraction -/

/-- C8: when the destination folder named after the archive's base name
already exists, extract_zip performs no extraction work, does not delete
the archive, and returns the existing folder path; any call of extract_zip
that returns returns that same folder path, so a second call with the
destination present returns the same path as the first. -/
theorem c8_extract_idempotent (stem : String) (entries : List String) :
    extract_zip stem true entries = .ok ⟨stem, [], false, false⟩
    ∧ (∀ d r, extract_zip stem d entries = .ok r → r.returned = stem) := by
  refine ⟨rfl, ?_⟩
  intro d r h
  unfold extract_zip at h
  split at h
  · injection h with h
    rw [← h]
  · split at h
    · split at h
      · injection h with h
        rw [← h]
      · exact absurd h (by simp)
    · injection h with h
      rw [← h]

/-- Witness for C8: a second extraction with the destination folder present
returns the folder created by the first. -/
theorem c8_extract_idempotent_witness :
    extract_zip "Foo" true ["Foo/", "Foo/a.txt"] = .ok ⟨"Foo", [], false, false⟩
    ∧ (ExtractResult.returned ⟨"Foo", ["a.txt"], true, true⟩) = "Foo" := by
  refine ⟨(c8_extract_idempotent "Foo" ["Foo/", "Foo/a.txt"]).1, ?_⟩
  exact (c8_extract_idempotent "Foo" ["Foo/", "Foo/a.txt"]).2 false
    ⟨"Foo", ["a.txt"], true, true⟩ (by decide)

/-! ## C1: the unwrap decision rule -/

theorem stripMembers_ok (folder : String) (entries : List String)
    (h : ∀ n ∈ entries, memberSkipped n = false →
      pyStartsWith n (folder ++ "/") = true) :
    stripMembers folder entries
      = .ok (entries.filterMap (fun n =>
          if memberSkipped n then none
          else some (pyDrop (folder.length + 1) n))) := by
  induction entries with
  | nil => rfl
  | cons n ns ih =>
    have hns : ∀ m ∈ ns, memberSkipped m = false →
        pyStartsWith m (folder ++ "/") = true :=
      fun m hm => h m (List.mem_cons_of_mem _ hm)
    by_cases hskip : memberSkipped n = true
    · simp [stripMembers, hskip, List.filterMap_cons, ih hns]
    · have hskip' : memberSkipped n = false := by
        simpa using hskip
      have hpre := h n (List.mem_cons_self _ _) hskip'
      simp [stripMembers, hskip', hpre, List.filterMap_cons, ih hns]

/-- C1 counterexample: the archive whose members are exactly `Foo/a.txt`
and `Foo/sub/b.txt` (no explicit directory entries) has, in the claim's
sense, zero root-level files and exactly one distinct root-level folder
`Foo`, so the claim requires every member to be written with the `Foo`
prefix stripped; the code detects root folders only from explicit `Name/`
directory entries, finds none here, and extracts all entries preserving
their paths verbatim — `a.txt` is not among the written paths. -/
theorem c1_counterexample :
    specRootFiles ["Foo/a.txt", "Foo/sub/b.txt"] = []
    ∧ specRootFolders ["Foo/a.txt", "Foo/sub/b.txt"] = ["Foo"]
    ∧ extract_zip "Foo" false ["Foo/a.txt", "Foo/sub/b.txt"]
      = .ok ⟨"Foo", ["Foo/a.txt", "Foo/sub/b.txt"], true, true⟩
    ∧ "a.txt" ∉ (ExtractResult.written
        ⟨"Foo", ["Foo/a.txt", "Foo/sub/b.txt"], true, true⟩) := by
  exact ⟨by decide, by decide, by decide, by decide⟩

/-- C1 (amended): extraction unwraps exactly when the archive's entries
(ignoring `__MACOSX/`) contain zero root-level files and exactly one
distinct root-level folder *recorded as an explicit directory entry*
`Name/`; in that case every non-directory member outside `__MACOSX/`
(all of which must lie under that folder, otherwise extraction raises) is
written with the folder name stripped as a path prefix; in every other
case all entries are extracted preserving their relative paths verbatim. -/
theorem c1_unwrap_rule (stem : String) (entries : List String) :
    (∀ F, codeRootFiles entries = [] →
      (codeRootFolders entries).dedup = [F] →
      (∀ n ∈ entries, memberSkipped n = false →
        pyStartsWith n (F ++ "/") = true) →
      extract_zip stem false entries
        = .ok ⟨stem,
            entries.filterMap (fun n =>
              if memberSkipped n then none
              else some (pyDrop (F.length + 1) n)),
            true, true⟩)
    ∧ (¬(codeRootFiles entries = []
        ∧ (codeRootFolders entries).dedup.length = 1) →
      extract_zip stem false entries = .ok ⟨stem, entries, true, true⟩) := by
  constructor
  · intro F hrf hdedup hpre
    unfold extract_zip
    rw [if_neg (by simp), hdedup, if_pos ⟨hrf, rfl⟩]
    simp only [List.headD_cons]
    rw [stripMembers_ok F entries hpre]
  · intro hcond
    unfold extract_zip
    rw [if_neg (by simp), if_neg hcond]

/-- Witness for the amended C1: an archive with explicit directory entries
`Foo/`, `Foo/sub/` and members `Foo/a.txt`, `Foo/sub/b.txt` is unwrapped to
`a.txt`, `sub/b.txt`; an archive with a root-level file `a.txt` next to
`Foo/b.txt` is extracted verbatim. -/
theorem c1_unwrap_rule_witness :
    extract_zip "Foo" false ["Foo/", "Foo/a.txt", "Foo/sub/", "Foo/sub/b.txt"]
      = .ok ⟨"Foo", ["a.txt", "sub/b.txt"], true, true⟩
    ∧ extract_zip "x" false ["a.txt", "Foo/b.txt"]
      = .ok ⟨"x", ["a.txt", "Foo/b.txt"], true, true⟩ := by
  constructor
  · have h := (c1_unwrap_rule "Foo"
      ["Foo/", "Foo/a.txt", "Foo/sub/", "Foo/sub/b.txt"]).1 "Foo"
      (by decide) (by decide) (by decide)
    exact h.trans (by decide)
  · exact (c1_unwrap_rule "x" ["a.txt", "Foo/b.txt"]).2 (by decide)

/-! ## C10: language-list handling at record creation -/

/-- C10 counterexample: `languages.remove('en')` removes only the first
occurrence, so supplying the list `["en", "en"]` at record creation stores
`["en"]` — a freshly created record whose languages field still holds the
literal "en", contradicting the claim as stated. -/
theorem c10_counterexample :
    storedLanguages ["en", "en"] = some ["en"]
    ∧ "en" ∈ (["en"] : List String) := by
  exact ⟨by decide, by decide⟩

theorem extract_languages_nodup (data : String → String) :
    (extract_languages data).Nodup := by
  unfold extract_languages
  have h : ∀ (cols : List String) (acc : List String), acc.Nodup →
      (cols.foldl
        (fun acc col =>
          let v := pyStrip (data col)
          if v ≠ "" ∧ v ∉ acc then acc ++ [v] else acc)
        acc).Nodup := by
    intro cols
    induction cols with
    | nil => intro acc hacc; exact hacc
    | cons c cs ih =>
      intro acc hacc
      simp only [List.foldl_cons]
      split
      · refine ih _ ?_
        rename_i hcond
        simp [List.nodup_append, hacc, hcond.2]
      · exact ih _ hacc
  exact h lang_columns [] List.nodup_nil

/-- C10 (amended): at record creation only the *first* occurrence of the
literal "en" is removed from a supplied language list, and the field is
omitted when the list is empty after removal; hence for any supplied list
holding at most one occurrence of "en" — in particular for every list
produced by the program's language extractor, which never holds duplicates
— a stored languages field never contains "en" and is never empty. -/
theorem c10_languages :
    (∀ ls out, ls.count "en" ≤ 1 → storedLanguages ls = some out →
      "en" ∉ out ∧ out ≠ [])
    ∧ (∀ data, (extract_languages data).count "en" ≤ 1) := by
  constructor
  · intro ls out hcount hstore
    unfold storedLanguages at hstore
    split at hstore
    · exact absurd hstore (by simp)
    · split at hstore
      · exact absurd hstore (by simp)
      · rename_i hne
        injection hstore with hstore
        subst hstore
        refine ⟨?_, hne⟩
        unfold afterEnRemoval
        by_cases hmem : "en" ∈ ls
        · rw [if_pos hmem]
          have h1 : (ls.erase "en").count "en" = ls.count "en" - 1 :=
            List.count_erase_self "en" ls
          have h0 : (ls.erase "en").count "en" = 0 := by omega
          exact List.count_eq_zero.mp h0
        · rw [if_neg hmem]
          exact hmem
  · intro data
    exact List.nodup_iff_count_le_one.mp (extract_languages_nodup data) "en"

/-- Witness for the amended C10 at the list `["fr", "en"]` (stored as
`["fr"]`) and a concrete row whose every column reads "en". -/
theorem c10_languages_witness :
    ("en" ∉ (["fr"] : List String) ∧ (["fr"] : List String) ≠ [])
    ∧ (extract_languages (fun _ => "en")).count "en" ≤ 1 :=
  ⟨c10_languages.1 ["fr", "en"] ["fr"] (by decide) (by decide),
   c10_languages.2 (fun _ => "en")⟩

/-! ## C9: TSV parsing -/

theorem dictInsert_not_mem (row : List (String × String)) (key value : String)
    (h : key ∉ row.map Prod.fst) :
    dictInsert row key value = row ++ [(key, value)] := by
  unfold dictInsert
  rw [if_neg h]

theorem buildRowAux_eq_zip (headers : List String) :
    ∀ (values : List String) (row : List (String × String)),
    headers.Nodup → (∀ k ∈ headers, k ∉ row.map Prod.fst) →
    buildRowAux row headers values = row ++ headers.zip values := by
  induction headers with
  | nil =>
    intro values row _ _
    cases values <;> simp [buildRowAux]
  | cons h hs ih =>
    intro values row hnd hdisj
    cases values with
    | nil => simp [buildRowAux]
    | cons v vs =>
      rw [buildRowAux,
        dictInsert_not_mem row h v (hdisj h (List.mem_cons_self _ _))]
      rw [ih vs (row ++ [(h, v)]) (List.nodup_cons.mp hnd).2 ?_]
      · simp
      · intro k hk
        simp only [List.map_append, List.mem_append]
        rintro (hkrow | hkv)
        · exact hdisj k (List.mem_cons_of_mem _ hk) hkrow
        · simp only [List.map_cons, List.map_nil, List.mem_singleton] at hkv
          exact (List.nodup_cons.mp hnd).1 (hkv ▸ hk)

theorem lookup_zip (headers : List String) :
    ∀ (values : List String) (j : Nat) (hj : j < headers.length),
    headers.Nodup →
    (headers.zip values).lookup (headers.get ⟨j, hj⟩) = values[j]? := by
  induction headers with
  | nil =>
    intro values j hj
    exact absurd hj (by simp)
  | cons h hs ih =>
    intro values j hj hnd
    cases values with
    | nil => simp
    | cons v vs =>
      cases j with
      | zero => simp [List.lookup]
      | succ i =>
        have hi : i < hs.length := by simpa using hj
        have hkey : hs.get ⟨i, hi⟩ ∈ hs := List.get_mem hs i hi
        have hne : (hs.get ⟨i, hi⟩ == h) = false := by
          simp only [beq_eq_false_iff_ne]
          exact fun he => (List.nodup_cons.mp hnd).1 (he ▸ hkey)
        simp only [List.zip_cons_cons, List.get_cons_succ, List.lookup, hne]
        simpa [List.zip] using ih vs i hi (List.nodup_cons.mp hnd).2

/-- C9: parsing treats the first line as the header row, maps each
subsequent non-blank row's values positionally to the header names (blank
lines are skipped), and for rows shorter than the header the missing
trailing fields are absent from the record (lookup yields none, not an
empty string); an empty body yields an empty sequence. -/
theorem c9_parse_tsv :
    parse_tsv "" = []
    ∧ (∀ headerLine, parse_tsvLines [headerLine] = [])
    ∧ (∀ headerLine rest, parse_tsvLines (headerLine :: rest)
        = (rest.filter (fun l => pyStrip l != "")).map
            (fun l => buildRow (pySplitChar '\t' headerLine)
              (pySplitChar '\t' l)))
    ∧ (∀ headers values j (hj : j < headers.length), headers.Nodup →
        (buildRow headers values).lookup (headers.get ⟨j, hj⟩)
          = values[j]?) := by
  refine ⟨rfl, fun headerLine => rfl, fun headerLine rest => rfl, ?_⟩
  intro headers values j hj hnd
  unfold buildRow
  rw [buildRowAux_eq_zip headers values [] hnd (by simp)]
  simpa using lookup_zip headers values j hj hnd

/-- Witness for C9: with header names `a`, `b`, `c` and the single-value
row `1`, the field for the second header is absent (none), not an empty
string. -/
theorem c9_parse_tsv_witness :
    (buildRow ["a", "b", "c"] ["1"]).lookup
        ((["a", "b", "c"] : List String).get ⟨1, by decide⟩)
      = (["1"] : List String)[1]? :=
  c9_parse_tsv.2.2.2 ["a", "b", "c"] ["1"] 1 (by decide) (by decide)

/-! ## Reconciliation-engine lemmas -/

theorem folder_exists_snd (n : String) (l : List String) :
    (folder_exists_on_remote n l).2 = l.erase n := by
  unfold folder_exists_on_remote
  split
  · rfl
  · rename_i hmem
    exact (List.erase_of_not_mem hmem).symm

theorem markProcessed_remote (st : RunState) (g : Item) :
    (markProcessed st g).remoteFolders = st.remoteFolders := by
  unfold markProcessed
  split <;> rfl

theorem markProcessed_transferCount (st : RunState) (g : Item) :
    (markProcessed st g).transferCount = st.transferCount := by
  unfold markProcessed
  split <;> rfl

theorem processItem_remote (maxT : Option Nat) (st : RunState) (g : Item)
    (out : RunState × LocalFiles) (h : processItem maxT st g = .ok out) :
    out.1.remoteFolders = st.remoteFolders.erase g.targetName := by
  simp only [processItem] at h
  rw [folder_exists_snd] at h
  repeat'
    first
    | (injection h with h; subst h;
       simp [markProcessed_remote, apply_ite RunState.remoteFolders])
    | exact Except.noConfusion h
    | split at h

theorem processItem_count_le (m : Nat) (st : RunState) (g : Item)
    (out : RunState × LocalFiles) (h : processItem (some m) st g = .ok out)
    (hle : st.transferCount ≤ m) : out.1.transferCount ≤ m := by
  simp only [processItem] at h
  repeat'
    first
    | (injection h with h; subst h;
       simp only [markProcessed_transferCount, apply_ite RunState.transferCount]
       repeat' split
       all_goals simp_all only [Bool.and_eq_true, decide_eq_true_eq]
       all_goals omega)
    | exact Except.noConfusion h
    | split at h

theorem processItems_count_le (m : Nat) :
    ∀ (items : List Item) (st st' : RunState),
    processItems (some m) st items = .ok st' →
    st.transferCount ≤ m → st'.transferCount ≤ m := by
  intro items
  induction items with
  | nil =>
    intro st st' h hle
    simp only [processItems] at h
    injection h with h
    subst h
    exact hle
  | cons g gs ih =>
    intro st st' h hle
    simp only [processItems] at h
    cases hpi : processItem (some m) st g with
    | error e =>
      rw [hpi] at h
      exact Except.noConfusion h
    | ok out =>
      obtain ⟨st1, lf⟩ := out
      rw [hpi] at h
      exact ih st1 st' h (processItem_count_le m st g (st1, lf) hpi hle)

theorem processItems_remote_mem (maxT : Option Nat) :
    ∀ (items : List Item) (st st' : RunState),
    st.remoteFolders.Nodup →
    processItems maxT st items = .ok st' →
    ∀ x, x ∈ st'.remoteFolders
      ↔ (x ∈ st.remoteFolders ∧ x ∉ items.map Item.targetName) := by
  intro items
  induction items with
  | nil =>
    intro st st' _ h x
    simp only [processItems] at h
    injection h with h
    subst h
    simp
  | cons g gs ih =>
    intro st st' hnd h x
    simp only [processItems] at h
    cases hpi : processItem maxT st g with
    | error e =>
      rw [hpi] at h
      exact Except.noConfusion h
    | ok out =>
      obtain ⟨st1, lf⟩ := out
      rw [hpi] at h
      have hrem : st1.remoteFolders = st.remoteFolders.erase g.targetName :=
        processItem_remote maxT st g (st1, lf) hpi
      have hnd1 : st1.remoteFolders.Nodup := by
        rw [hrem]
        exact hnd.erase _
      rw [ih st1 st' hnd1 h x, hrem, List.Nodup.mem_erase_iff hnd]
      simp only [List.map_cons, List.mem_cons]
      tauto

theorem processItems_append (maxT : Option Nat) :
    ∀ (xs ys : List Item) (st : RunState),
    processItems maxT st (xs ++ ys)
      = match processItems maxT st xs with
        | .ok st1 => processItems maxT st1 ys
        | .error e => .error e := by
  intro xs
  induction xs with
  | nil => intro ys st; rfl
  | cons g gs ih =>
    intro ys st
    simp only [List.cons_append, processItems]
    cases processItem maxT st g with
    | error e => rfl
    | ok out =>
      obtain ⟨st1, lf⟩ := out
      exact ih ys st1

theorem mem_insertSorted (x a : String) (l : List String) :
    x ∈ insertSorted a l ↔ x = a ∨ x ∈ l := by
  induction l with
  | nil => simp [insertSorted]
  | cons y ys ih =>
    unfold insertSorted
    split
    · simp
    · simp only [List.mem_cons, ih]
      tauto

theorem mem_sortStrings (x : String) (l : List String) :
    x ∈ sortStrings l ↔ x ∈ l := by
  induction l with
  | nil => simp [sortStrings]
  | cons y ys ih =>
    unfold sortStrings at *
    simp only [List.foldr_cons, mem_insertSorted, List.mem_cons, ih]

/-! ## C2: transfer budget -/

/-- C2 counterexample: with maxTransfers = 0 the budget is exhausted from
the start; an item needing transfer whose extracted .zip folder already
exists locally is nevertheless added to the processed/export list (and its
archive file is not removed) — the item is not excluded as claimed. -/
theorem c2_counterexample :
    processItem (some 0) ⟨[], 0, []⟩
      ⟨"game1", true, "game1.zip", false, true, true, true, true, true, true⟩
      = .ok (⟨[], 0, ["game1"]⟩, ⟨false, true, true⟩)
    ∧ "game1" ∈ (["game1"] : List String)
    ∧ (LocalFiles.file ⟨false, true, true⟩) = true := by
  exact ⟨by decide, by decide, by decide⟩

/-- C2 (amended): at most maxTransfers successful uploads are performed per
run; an item needing transfer after the budget is exhausted does not abort
the run; if its extracted folder is not already present locally its local
artifacts (downloaded file, folder, temp file) are removed and it is
excluded from the processed/export list, but an item whose extracted .zip
folder already exists locally has the folder removed without upload while
remaining in the processed list, its archive and temp files untouched;
with maxTransfers = 1 and two items both needing transfer, exactly one
upload occurs and only the transferred item is processed. -/
theorem c2_transfer_budget :
    (∀ (m : Nat) (init : List String) (items : List Item) (st' : RunState),
      processItems (some m) ⟨init, 0, []⟩ items = .ok st' →
      st'.transferCount ≤ m)
    ∧ (∀ (m : Nat) (st : RunState) (g : Item), m ≤ st.transferCount →
      g.isSkipped = false → g.targetName ∉ st.remoteFolders →
      g.hasDownload = true →
      ¬(isZip g.filename = true ∧ g.localFolder = true) →
      processItem (some m) st g = .ok (st, ⟨false, false, false⟩))
    ∧ (∀ (m : Nat) (st : RunState) (g : Item), m ≤ st.transferCount →
      g.isSkipped = false → g.targetName ∉ st.remoteFolders →
      g.hasDownload = true → isZip g.filename = true → g.localFolder = true →
      g.hasMetadata = true →
      processItem (some m) st g
        = .ok ({ st with processed := st.processed ++ [g.targetName] },
               ⟨false, g.localFile, g.tempFile⟩))
    ∧ processItems (some 1) ⟨[], 0, []⟩
        [⟨"g1", true, "g1.zip", false, true, false, false, false, true, true⟩,
         ⟨"g2", true, "g2.zip", false, true, false, false, false, true, true⟩]
      = .ok ⟨[], 1, ["g1"]⟩ := by
  refine ⟨?_, ?_, ?_, by decide⟩
  · intro m init items st' h
    exact processItems_count_le m items ⟨init, 0, []⟩ st' h (Nat.zero_le m)
  · intro m st g hm hskip hmem hdl hnz
    have hnlt : ¬(st.transferCount < m) := by omega
    simp [processItem, folder_exists_on_remote, hskip, hdl, hnz, hmem, hnlt]
  · intro m st g hm hskip hmem hdl hz hfold hmeta
    have hnlt : ¬(st.transferCount < m) := by omega
    simp [processItem, folder_exists_on_remote, markProcessed,
      hskip, hdl, hz, hfold, hmeta, hmem, hnlt]

/-- Witness for the amended C2: the upload bound at the two-item run, a
budget-exhausted item in the download path (artifacts removed, excluded),
and a budget-exhausted item with a pre-existing local folder (still
processed, archive kept). -/
theorem c2_transfer_budget_witness :
    (1 : Nat) ≤ 1
    ∧ processItem (some 0) ⟨[], 0, []⟩
        ⟨"h", true, "h.zip", false, true, false, true, true, true, true⟩
        = .ok (⟨[], 0, []⟩, ⟨false, false, false⟩)
    ∧ processItem (some 0) ⟨[], 0, []⟩
        ⟨"game1", true, "game1.zip", false, true, true, true, true, true, true⟩
        = .ok (⟨[], 0, ["game1"]⟩, ⟨false, true, true⟩) := by
  refine ⟨?_, ?_, ?_⟩
  · exact c2_transfer_budget.1 1 []
      [⟨"g1", true, "g1.zip", false, true, false, false, false, true, true⟩,
       ⟨"g2", true, "g2.zip", false, true, false, false, false, true, true⟩]
      ⟨[], 1, ["g1"]⟩ (by decide)
  · exact (c2_transfer_budget.2.1 0 ⟨[], 0, []⟩
      ⟨"h", true, "h.zip", false, true, false, true, true, true, true⟩
      (by decide) rfl (by decide) rfl (by decide)).trans (by decide)
  · exact (c2_transfer_budget.2.2.1 0 ⟨[], 0, []⟩
      ⟨"game1", true, "game1.zip", false, true, true, true, true, true, true⟩
      (by decide) rfl (by decide) rfl (by decide) rfl rfl).trans (by decide)

/-! ## C3: orphan detection -/

/-- C3: after the loop has decided every catalog item, every snapshot entry
matched to an item has been removed from the snapshot (an entry remains iff
it was in the initial snapshot and no item targets it), and if any entries
remain the run aborts with an orphan error naming exactly the remaining
entries. -/
theorem c3_orphan_detection (maxT : Option Nat) (init : List String)
    (items : List Item) (st' : RunState) (hnd : init.Nodup)
    (hrun : processItems maxT ⟨init, 0, []⟩ items = .ok st') :
    (∀ x, x ∈ st'.remoteFolders
      ↔ (x ∈ init ∧ x ∉ items.map Item.targetName))
    ∧ (st'.remoteFolders ≠ [] →
        download_and_process_games maxT init items
          = .error (.orphans (sortStrings st'.remoteFolders)))
    ∧ (∀ x, x ∈ sortStrings st'.remoteFolders ↔ x ∈ st'.remoteFolders) := by
  refine ⟨processItems_remote_mem maxT items ⟨init, 0, []⟩ st' hnd hrun,
    ?_, fun x => mem_sortStrings x _⟩
  intro hne
  unfold download_and_process_games
  rw [hrun]
  dsimp only
  rw [if_neg hne]

/-- Witness for C3: snapshot {"A", "B"} and a catalog whose only item maps
to "A" fail with an orphan error naming "B". -/
theorem c3_orphan_detection_witness :
    download_and_process_games none ["A", "B"]
      [⟨"A", false, "", false, true, false, false, false, false, false⟩]
      = .error (.orphans ["B"])
    ∧ ("B" ∈ (["B"] : List String) ↔ ("B" ∈ ["A", "B"]
        ∧ "B" ∉ ([⟨"A", false, "", false, true, false, false, false, false,
            false⟩] : List Item).map Item.targetName)) := by
  have h := c3_orphan_detection none ["A", "B"]
    [⟨"A", false, "", false, true, false, false, false, false, false⟩]
    ⟨["B"], 0, ["A"]⟩ (by decide) (by decide)
  exact ⟨(h.2.1 (by decide)).trans (by decide), h.1 "B"⟩

/-! ## C6: missing source aborts the run -/

/-- C6: an item that is not marked skip, does not exist on the remote
mirror and has no source URL makes the loop raise a missing-source error
that aborts the entire run: the remaining items are never examined and the
whole reconciliation returns this error. -/
theorem c6_missing_source_aborts (maxT : Option Nat) (st : RunState)
    (g : Item) (hskip : g.isSkipped = false) (hdl : g.hasDownload = false)
    (hmem : g.targetName ∉ st.remoteFolders) :
    processItem maxT st g = .error (.missingSource g.targetName)
    ∧ (∀ rest, processItems maxT st (g :: rest)
        = .error (.missingSource g.targetName))
    ∧ (∀ init pre rest, processItems maxT ⟨init, 0, []⟩ pre = .ok st →
        download_and_process_games maxT init (pre ++ g :: rest)
          = .error (.missingSource g.targetName)) := by
  have h1 : processItem maxT st g = .error (.missingSource g.targetName) := by
    simp [processItem, folder_exists_on_remote, hskip, hdl, hmem]
  have h2 : ∀ rest, processItems maxT st (g :: rest)
      = .error (.missingSource g.targetName) := by
    intro rest
    simp only [processItems, h1]
  refine ⟨h1, h2, ?_⟩
  intro init pre rest hpre
  unfold download_and_process_games
  rw [processItems_append, hpre]
  dsimp only
  rw [h2 rest]

/-- Witness for C6 at a catalog with one unobtainable item followed by
another item that is never reached. -/
theorem c6_missing_source_aborts_witness :
    processItem none ⟨[], 0, []⟩
      ⟨"G", false, "", false, true, false, false, false, false, false⟩
      = .error (.missingSource "G")
    ∧ processItems none ⟨[], 0, []⟩
        [⟨"G", false, "", false, true, false, false, false, false, false⟩,
         ⟨"H", true, "h.zip", false, true, false, false, false, true, true⟩]
      = .error (.missingSource "G")
    ∧ download_and_process_games none []
        [⟨"G", false, "", false, true, false, false, false, false, false⟩]
      = .error (.missingSource "G") := by
  have h := c6_missing_source_aborts none ⟨[], 0, []⟩
    ⟨"G", false, "", false, true, false, false, false, false, false⟩
    rfl rfl (by decide)
  exact ⟨h.1, h.2.1 [⟨"H", true, "h.zip", false, true, false, false, false,
    true, true⟩], h.2.2 [] [] [] rfl⟩

/-! ## C7: skip handling -/

/-- C7: a catalog item marked skip that does not exist on the remote mirror
is passed over entirely — no transfer, no local-file change, and it is not
added to the processed/export list; a skipped item that does exist on the
remote mirror is added to the export list without any re-transfer (the
transfer counter is unchanged) and its local leftover files are cleaned up
(when it has a download URL and filename, folder and file are removed). -/
theorem c7_skip_handling (maxT : Option Nat) (st : RunState) (g : Item)
    (hskip : g.isSkipped = true) :
    (g.targetName ∉ st.remoteFolders →
      processItem maxT st g
        = .ok (st, ⟨g.localFolder, g.localFile, g.tempFile⟩))
    ∧ (g.targetName ∈ st.remoteFolders → g.hasMetadata = true →
      processItem maxT st g
        = .ok ({ st with
                  remoteFolders := st.remoteFolders.erase g.targetName,
                  processed := st.processed ++ [g.targetName] },
               cleanupRemoteDone g)) := by
  constructor
  · intro hmem
    simp [processItem, folder_exists_on_remote, hskip, hmem]
  · intro hmem hmeta
    simp [processItem, folder_exists_on_remote, markProcessed, hskip, hmem,
      hmeta]

/-- Witness for C7: a skipped item absent from the remote snapshot is left
alone and unprocessed; a skipped item present on the remote snapshot is
exported, not re-transferred, and its local leftovers are removed. -/
theorem c7_skip_handling_witness :
    processItem none ⟨["A"], 0, []⟩
      ⟨"S", true, "s.zip", true, true, true, true, false, true, true⟩
      = .ok (⟨["A"], 0, []⟩, ⟨true, true, false⟩)
    ∧ processItem none ⟨["A"], 0, []⟩
        ⟨"A", true, "a.zip", true, true, true, true, true, true, true⟩
        = .ok (⟨[], 0, ["A"]⟩, ⟨false, false, true⟩) := by
  constructor
  · exact ((c7_skip_handling none ⟨["A"], 0, []⟩
      ⟨"S", true, "s.zip", true, true, true, true, false, true, true⟩
      rfl).1 (by decide)).trans (by decide)
  · exact ((c7_skip_handling none ⟨["A"], 0, []⟩
      ⟨"A", true, "a.zip", true, true, true, true, true, true, true⟩
      rfl).2 (by decide) rfl).trans (by decide)
